import Mathlib

/-!
# Verification of `order.py` — interactive list-curation tool

Shallow embedding of the interactive reordering tool `order.py`:
the session state (`AppState`), cursor navigation with Python-style
wraparound modulo, adjacent swap-moves with anchor re-indexing,
anchor-based pick-up/drop relocation, the line-editor state machine of
`prompt_user`, the three rename operations (single, pattern-strip,
final enumerate), and the session-loop dispatch.

Python integer arithmetic on indices is modelled with `Int.emod`
(which, like the Python `%` with a positive modulus, always yields a
result in `[0, n)`), and Python list primitives (`pop`, `insert`,
indexing) are modelled with their exact clamping / error behavior:
a fallible primitive returns `Option` or `Except`, `none`/`.error`
standing for the raised exception.
-/

namespace Order

/-- The mutable state of the event loop of `main`: the file list, the
highlighted row `current_idx`, the optional anchor `first_selection`
and the pending status message. -/
structure AppState where
  files : List String
  current_idx : Nat
  first_selection : Option Nat
  message : String
deriving Repr, DecidableEq

/-- `(i - 1) % len(files) if files else 0` — Python `%` with a positive
modulus returns a value in `[0, n)`, which is exactly `Int.emod`. -/
def moveUpIdx (i n : Nat) : Nat :=
  if n = 0 then 0 else (((i : Int) - 1) % (n : Int)).toNat

/-- `(i + 1) % len(files) if files else 0`. -/
def moveDownIdx (i n : Nat) : Nat :=
  if n = 0 then 0 else (((i : Int) + 1) % (n : Int)).toNat

/-- Cursor move on KEY_UP / `k`. -/
def moveUp (s : AppState) : AppState :=
  { s with current_idx := moveUpIdx s.current_idx s.files.length }

/-- Cursor move on KEY_DOWN / `j`. -/
def moveDown (s : AppState) : AppState :=
  { s with current_idx := moveDownIdx s.current_idx s.files.length }

/-- The Python simultaneous assignment
`files[i], files[j] = files[j], files[i]`: both right-hand values are
read from the original list, then written back. -/
def listSwap (l : List String) (i j : Nat) : List String :=
  (l.set i (l.getD j "")).set j (l.getD i "")

/-- The `K` handler: remember `old_idx`, move the cursor up with
wraparound, swap the two rows, and if the new cursor index equals the
anchor, bump the anchor by one clamped to the last valid index. -/
def swapMoveUp (s : AppState) : AppState :=
  let old := s.current_idx
  let new := moveUpIdx s.current_idx s.files.length
  { s with
    files := listSwap s.files old new
    current_idx := new
    first_selection :=
      match s.first_selection with
      | some a => if new = a then some (min (a + 1) (s.files.length - 1)) else some a
      | none => none }

/-- The `J` handler: move the cursor down with wraparound, swap the two
rows, and if the new cursor index equals the anchor, decrement the
anchor clamped to 0 (`max(first_selection-1, 0)`; `Nat` subtraction
clamps at 0 exactly like the Python `max`). -/
def swapMoveDown (s : AppState) : AppState :=
  let old := s.current_idx
  let new := moveDownIdx s.current_idx s.files.length
  { s with
    files := listSwap s.files old new
    current_idx := new
    first_selection :=
      match s.first_selection with
      | some a => if new = a then some (a - 1) else some a
      | none => none }

/-- The pick-up/drop branch of the Enter/Space handler when the anchor
is set and differs from the cursor: `files.pop(first_selection)` then
`files.insert(current_idx, selected_value)`, anchor cleared. -/
def dropItem (s : AppState) (a : Nat) : AppState :=
  let v := s.files.getD a ""
  { s with
    files := (s.files.eraseIdx a).insertIdx s.current_idx v
    first_selection := none }

/-! ## Line editor (`prompt_user`) -/

/-- The line-editor state: the character buffer and the cursor offset.
The offset is an `Int` because the Python `cursor_pos = len(buffer) - 1`
(Ctrl-E) can produce `-1` on an empty buffer. -/
structure EditBuffer where
  buffer : List Char
  cursor : Int
deriving Repr, DecidableEq

/-- Python `list.pop(i)`: valid when the list is non-empty and
`-len ≤ i < len` (a negative index counts from the end); out of range
raises `IndexError`, modelled as `none`. -/
def pyPop (l : List Char) (i : Int) : Option (List Char) :=
  let e : Int := if i < 0 then (l.length : Int) + i else i
  if 0 ≤ e ∧ e < (l.length : Int) then some (l.eraseIdx e.toNat) else none

/-- Python `list.insert(i, c)`: the index is clamped into `[0, len]`
(a negative index first counts from the end); never raises. -/
def pyInsert (l : List Char) (i : Int) (c : Char) : List Char :=
  let e : Int := if i < 0 then (l.length : Int) + i else i
  l.insertIdx ((max 0 (min e (l.length : Int))).toNat) c

/-- The editing events of `prompt_user` (confirm and cancel resolve the
prompt and are modelled at the session level). -/
inductive EditEvent where
  | home
  | deleteForward
  | jumpEnd
  | backspace
  | left
  | right
  | insert (c : Char)
deriving Repr, DecidableEq

/-- One editing event of the loop in `prompt_user`. `none` models an
uncaught Python exception (the `IndexError` of `buffer.pop`). -/
def editStep (e : EditEvent) (b : EditBuffer) : Option EditBuffer :=
  match e with
  | .home => some { b with cursor := 0 }
  | .deleteForward =>
      if b.buffer.length > 0 then
        (pyPop b.buffer b.cursor).map fun l => { b with buffer := l }
      else some b
  | .jumpEnd => some { b with cursor := (b.buffer.length : Int) - 1 }
  | .backspace =>
      if b.cursor > 0 then
        (pyPop b.buffer (b.cursor - 1)).map fun l => ⟨l, b.cursor - 1⟩
      else some b
  | .left => some (if b.cursor > 0 then { b with cursor := b.cursor - 1 } else b)
  | .right =>
      some (if b.cursor < (b.buffer.length : Int) then { b with cursor := b.cursor + 1 } else b)
  | .insert c => some ⟨pyInsert b.buffer b.cursor c, b.cursor + 1⟩

/-- The buffer `prompt_user` starts from: the default text with the
cursor after its last character. -/
def initBuffer (default : String) : EditBuffer :=
  ⟨default.data, (default.data.length : Int)⟩

/-! ## Rename engine -/

/-- The `r` handler after the prompt resolved with `res` (`none` =
cancelled or empty): if the confirmed name differs from the old one,
attempt the filesystem rename; on success update the slot and report,
on failure leave the list untouched and report the reason.  `fs` is the
filesystem capability (`os.rename`). -/
def singleRename (fs : String → String → Except String Unit) (s : AppState)
    (res : Option String) : AppState :=
  let old := s.files.getD s.current_idx ""
  match res with
  | none => s
  | some newName =>
      if newName ≠ old then
        match fs old newName with
        | .ok _ =>
            { s with files := s.files.set s.current_idx newName
                     message := "Renamed " ++ old ++ " to " ++ newName }
        | .error e => { s with message := "Error: " ++ e }
      else s

/-- Fuel-driven worker for `stripMatches`; the fuel is an upper bound
on the length of the list, so it never runs out. -/
def stripMatchesF (p : List Char) : Nat → List Char → List Char
  | _, [] => []
  | 0, l => l
  | fuel + 1, c :: rest =>
      if p ≠ [] ∧ p.isPrefixOf (c :: rest) then
        stripMatchesF p fuel (rest.drop (p.length - 1))
      else
        c :: stripMatchesF p fuel rest

/-- Removes every non-overlapping occurrence of the literal pattern
`p`, scanning left to right: models Python `re.sub(p, "", s)` on
`List Char` for a pattern of plain characters (no metacharacters).
`re.sub` replaces all matches, not just the first. -/
def stripMatches (p l : List Char) : List Char :=
  stripMatchesF p l.length l

/-- Models Python `re.sub(pat, "", s)` for a literal pattern. -/
def reSubLit (pat s : String) : String :=
  ⟨stripMatches pat.data s.data⟩

/-- The words of the SPEC, for comparison with `stripMatches`: remove only
the FIRST match of the pattern, leaving the rest of the string as is. -/
def specStripFirst (p : List Char) : List Char → List Char
  | [] => []
  | c :: rest =>
      if p ≠ [] ∧ p.isPrefixOf (c :: rest) then
        rest.drop (p.length - 1)
      else
        c :: specStripFirst p rest

/-- The spec-side single-removal transformation on `String`. -/
def specStripFirstStr (pat s : String) : String :=
  ⟨specStripFirst pat.data s.data⟩

/-- Modelled: the default strip pattern is the start-of-string anchor
regex, and `re.sub` with that pattern and an empty replacement inserts
nothing at the start of the string, leaving `v` unchanged. -/
def caretSub : String → String := fun v => v

/-- The loop of the `S` handler, pure view (no filesystem): applies the
substitution to every name; a changed name replaces its slot and is
counted, an unchanged name is left untouched.  Returns the updated
list and the reported count. -/
def stripRenameList (sub : String → String) : List String → List String × Nat
  | [] => ([], 0)
  | v :: rest =>
      let newName := sub v
      let r := stripRenameList sub rest
      if newName ≠ v then (newName :: r.1, r.2 + 1) else (v :: r.1, r.2)

/-- The loop of the `S` handler with the filesystem capability: for every
changed name, `os.rename` is called with NO surrounding try/except, so
a failure propagates (`Except.error`) and aborts the loop. -/
def stripRenameFS (fs : String → String → Except String Unit)
    (sub : String → String) : List String → Except String (List String × Nat)
  | [] => .ok ([], 0)
  | v :: rest =>
      let newName := sub v
      if newName ≠ v then
        match fs v newName with
        | .ok _ =>
            match stripRenameFS fs sub rest with
            | .ok r => .ok (newName :: r.1, r.2 + 1)
            | .error e => .error e
        | .error e => .error e
      else
        match stripRenameFS fs sub rest with
        | .ok r => .ok (v :: r.1, r.2)
        | .error e => .error e

/-! ## Final enumerate rename -/

/-- Decimal digit count of `n` (length of `str(n)`). -/
def numDigits (n : Nat) : Nat := (toString n).length

/-- `math.ceil(math.log(n, 10))` under exact real arithmetic: `0` for
`n ≤ 1`, and otherwise the number of decimal digits of `n - 1` (the
least `k` with `n ≤ 10^k`). -/
def ceilLog10 (n : Nat) : Nat :=
  if n ≤ 1 then 0 else numDigits (n - 1)

/-- Python `"%0wd" % i`: the decimal representation of `i`, left-padded
with zeros to width `w`. -/
def fmtIdx (w i : Nat) : String :=
  let s := toString i
  String.mk (List.replicate (w - s.length) '0') ++ s

/-- The final loop of the entry point: for each `(i, f)` in
`enumerate(files)` it renames `f` to the formatted pattern applied to
`i+1`, a space, and `f`, where the default pattern is `"%0wd"`.
Returns the renames performed, in order: one per item. -/
def finalRenames (w : Nat) (files : List String) : List (String × String) :=
  files.enum.map fun p => (p.2, fmtIdx w (p.1 + 1) ++ " " ++ p.2)

/-! ## Session loop -/

/-- One decoded key event of the loop in `main`.  A key that opens a prompt
carries the resolution of the prompt (`none` = cancelled/empty), since
`prompt_user` blocks until resolved; for `S` the confirmed pattern is
carried as the compiled substitution `re.sub(pattern, "", ·)`. -/
inductive Key where
  | up
  | down
  | escCancel
  | swapUp
  | swapDown
  | select
  | quit
  | bulk (res : Option String)
  | renameKey (res : Option String)
  | strip (res : Option (String → String))
  | other

/-- Result of one loop iteration: continue running with a new state,
return from `main` (with the bulk pattern when `x` was used), or die
on an uncaught Python exception. -/
inductive StepResult where
  | next (s : AppState)
  | exitWith (pat : Option String)
  | crash (e : String)

/-- `true` exactly on `StepResult.next` (the loop keeps running). -/
def StepResult.isNext : StepResult → Bool
  | .next _ => true
  | _ => false

/-- One iteration of the event loop in `main` (the message is cleared after
each draw, then the key is dispatched). -/
def step (fs : String → String → Except String Unit) (k : Key) (s₀ : AppState) :
    StepResult :=
  let s := { s₀ with message := "" }
  match k with
  | .up => .next (moveUp s)
  | .down => .next (moveDown s)
  | .escCancel => .next { s with first_selection := none }
  | .swapUp =>
      if s.current_idx < s.files.length then .next (swapMoveUp s)
      else .crash "IndexError"
  | .swapDown =>
      if s.current_idx < s.files.length then .next (swapMoveDown s)
      else .crash "IndexError"
  | .select =>
      match s.first_selection with
      | none => .next { s with first_selection := some s.current_idx }
      | some a =>
          if a = s.current_idx then .next { s with first_selection := none }
          else if a < s.files.length then .next (dropItem s a)
          else .crash "IndexError"
  | .quit => .exitWith none
  | .bulk res => .exitWith res
  | .renameKey res =>
      if s.current_idx < s.files.length then .next (singleRename fs s res)
      else .crash "IndexError"
  | .strip res =>
      match res with
      | none => .crash "TypeError"
      | some sub =>
          match stripRenameFS fs sub s.files with
          | .ok r =>
              .next { s with files := r.1
                             message := "Renamed " ++ toString r.2 ++ " files" }
          | .error e => .crash e
  | .other => .next s

/-- Extracts the continuation state of a `StepResult.next`, defaulting
to the empty state otherwise. -/
def resultState (r : StepResult) : AppState :=
  match r with
  | .next s => s
  | _ => ⟨[], 0, none, ""⟩

/-- A swap-move key, for reasoning about sequences of swap-moves. -/
inductive SwapMove where
  | up
  | down

/-- Dispatch of one swap-move. -/
def applySwap : SwapMove → AppState → AppState
  | .up, s => swapMoveUp s
  | .down, s => swapMoveDown s

/-- A sequence of swap-moves, applied left to right. -/
def applySwaps : List SwapMove → AppState → AppState
  | [], s => s
  | m :: ms, s => applySwaps ms (applySwap m s)

/-! ## Index arithmetic lemmas -/

lemma moveUpIdx_eq (i n : Nat) (h : i < n) :
    moveUpIdx i n = (i + (n - 1)) % n := by
  unfold moveUpIdx
  rw [if_neg (by omega)]
  have h1 : (i : Int) - 1 = ((i + (n - 1) : Nat) : Int) + (n : Int) * (-1) := by
    omega
  rw [h1, Int.add_mul_emod_self_left, ← Int.ofNat_emod, Int.toNat_ofNat]

lemma moveDownIdx_eq (i n : Nat) (h : i < n) :
    moveDownIdx i n = (i + 1) % n := by
  unfold moveDownIdx
  rw [if_neg (by omega)]
  have h1 : (i : Int) + 1 = ((i + 1 : Nat) : Int) := by omega
  rw [h1, ← Int.ofNat_emod, Int.toNat_ofNat]

lemma moveUpIdx_lt (i n : Nat) (hn : 0 < n) : moveUpIdx i n < n := by
  unfold moveUpIdx
  rw [if_neg (by omega)]
  have h1 := Int.emod_nonneg ((i : Int) - 1) (by omega : (n : Int) ≠ 0)
  have h2 := Int.emod_lt_of_pos ((i : Int) - 1) (by omega : (0 : Int) < n)
  omega

lemma moveDownIdx_lt (i n : Nat) (hn : 0 < n) : moveDownIdx i n < n := by
  unfold moveDownIdx
  rw [if_neg (by omega)]
  have h1 := Int.emod_nonneg ((i : Int) + 1) (by omega : (n : Int) ≠ 0)
  have h2 := Int.emod_lt_of_pos ((i : Int) + 1) (by omega : (0 : Int) < n)
  omega

lemma moveUpIdx_zero (n : Nat) (hn : 0 < n) : moveUpIdx 0 n = n - 1 := by
  rw [moveUpIdx_eq 0 n hn, Nat.zero_add, Nat.mod_eq_of_lt (by omega)]

lemma moveUpIdx_pos (i n : Nat) (h1 : 1 ≤ i) (h : i < n) :
    moveUpIdx i n = i - 1 := by
  rw [moveUpIdx_eq i n h, show i + (n - 1) = (i - 1) + n by omega,
    Nat.add_mod_right, Nat.mod_eq_of_lt (by omega)]

lemma moveDownIdx_last (n : Nat) (hn : 0 < n) : moveDownIdx (n - 1) n = 0 := by
  rw [moveDownIdx_eq (n - 1) n (by omega), show n - 1 + 1 = n by omega,
    Nat.mod_self]

lemma moveDownIdx_mid (i n : Nat) (h : i + 1 < n) : moveDownIdx i n = i + 1 := by
  rw [moveDownIdx_eq i n (by omega), Nat.mod_eq_of_lt h]

/-! ## List lemmas -/

lemma getD_of_lt (l : List String) (i : Nat) (h : i < l.length) :
    l.getD i "" = l[i] := by
  rw [List.getD_eq_getElem?_getD, List.getElem?_eq_getElem h]
  rfl

lemma listSwap_length (l : List String) (i j : Nat) :
    (listSwap l i j).length = l.length := by
  simp [listSwap]

lemma listSwap_getD_ne (l : List String) (i j k : Nat)
    (hki : k ≠ i) (hkj : k ≠ j) :
    (listSwap l i j).getD k "" = l.getD k "" := by
  unfold listSwap
  rw [List.getD_eq_getElem?_getD, List.getElem?_set_ne (Ne.symm hkj),
    List.getElem?_set_ne (Ne.symm hki), ← List.getD_eq_getElem?_getD]

lemma listSwap_getD_right (l : List String) (i j : Nat) (hj : j < l.length) :
    (listSwap l i j).getD j "" = l.getD i "" := by
  unfold listSwap
  rw [List.getD_eq_getElem?_getD,
    List.getElem?_set_self (by simpa using hj)]
  rfl

lemma listSwap_getD_left (l : List String) (i j : Nat) (hij : i ≠ j)
    (hi : i < l.length) :
    (listSwap l i j).getD i "" = l.getD j "" := by
  unfold listSwap
  rw [List.getD_eq_getElem?_getD, List.getElem?_set_ne (Ne.symm hij),
    List.getElem?_set_self hi]
  rfl

lemma cons_getD_set_perm (l : List String) : ∀ (m : Nat) (a : String),
    m < l.length → (l.getD m "" :: l.set m a).Perm (a :: l) := by
  induction l with
  | nil => intro m a h; simp at h
  | cons b t ih =>
    intro m a h
    cases m with
    | zero =>
      simp only [List.getD_cons_zero, List.set_cons_zero]
      exact List.Perm.swap a b t
    | succ m =>
      simp only [List.getD_cons_succ, List.set_cons_succ]
      exact ((List.Perm.swap b (t.getD m "") (t.set m a)).trans
        ((ih m a (by simpa using h)).cons b)).trans (List.Perm.swap a b t)

lemma listSwap_perm (l : List String) : ∀ (i j : Nat),
    i < l.length → j < l.length → (listSwap l i j).Perm l := by
  induction l with
  | nil => intro i j hi _; simp at hi
  | cons b t ih =>
    intro i j hi hj
    cases i with
    | zero =>
      cases j with
      | zero =>
        simp only [listSwap, List.getD_cons_zero, List.set_cons_zero]
        exact List.Perm.refl _
      | succ m =>
        simp only [listSwap, List.getD_cons_succ, List.getD_cons_zero,
          List.set_cons_zero, List.set_cons_succ]
        exact cons_getD_set_perm t m b (by simpa using hj)
    | succ k =>
      cases j with
      | zero =>
        simp only [listSwap, List.getD_cons_zero, List.getD_cons_succ,
          List.set_cons_succ, List.set_cons_zero]
        exact cons_getD_set_perm t k b (by simpa using hi)
      | succ m =>
        simp only [listSwap, List.getD_cons_succ, List.set_cons_succ]
        exact (ih k m (by simpa using hi) (by simpa using hj)).cons b

/-! ## Enumerate-rename lemmas -/

lemma enumFrom_renames_map_fst (w : Nat) : ∀ (l : List String) (k : Nat),
    ((l.enumFrom k).map fun p => (p.2, fmtIdx w (p.1 + 1) ++ " " ++ p.2)).map
      Prod.fst = l := by
  intro l
  induction l with
  | nil => intro k; rfl
  | cons b t ih =>
    intro k
    simp only [List.enumFrom_cons, List.map_cons]
    rw [ih (k + 1)]

lemma enumFrom_renames_getD (w : Nat) : ∀ (l : List String) (k i : Nat),
    i < l.length →
    ((l.enumFrom k).map fun p => (p.2, fmtIdx w (p.1 + 1) ++ " " ++ p.2)).getD
        i ("", "")
      = (l.getD i "", fmtIdx w (k + i + 1) ++ " " ++ l.getD i "") := by
  intro l
  induction l with
  | nil => intro k i h; simp at h
  | cons b t ih =>
    intro k i h
    cases i with
    | zero => simp [List.enumFrom_cons]
    | succ i =>
      simp only [List.enumFrom_cons, List.map_cons, List.getD_cons_succ]
      rw [ih (k + 1) i (by simpa using h),
        show k + 1 + i + 1 = k + (i + 1) + 1 by omega]

lemma finalRenames_length (w : Nat) (l : List String) :
    (finalRenames w l).length = l.length := by
  simp [finalRenames, List.enum]

/-! ## Claim theorems -/

/-- Claim C1 (amended): the final enumerate rename renames every item
exactly once, in the final displayed order, prefixing the original
name with its 1-based index zero-padded to the width
`ceil(log10 itemCount)` (which is 1 for a count of 10, so ten items
are numbered 1..10, not 01..10). -/
theorem c1_final_enumerate (files : List String) :
    (finalRenames (ceilLog10 files.length) files).map Prod.fst = files ∧
    (finalRenames (ceilLog10 files.length) files).length = files.length ∧
    ∀ i, i < files.length →
      (finalRenames (ceilLog10 files.length) files).getD i ("", "")
        = (files.getD i "",
           fmtIdx (ceilLog10 files.length) (i + 1) ++ " " ++ files.getD i "") := by
  refine ⟨enumFrom_renames_map_fst _ files 0, finalRenames_length _ _, ?_⟩
  intro i h
  have h1 := enumFrom_renames_getD (ceilLog10 files.length) files 0 i h
  rw [show (0 : Nat) + i + 1 = i + 1 by omega] at h1
  exact h1

/-- Witness for C1: with two items, item 1 is renamed to
"1 " followed by its old name. -/
theorem c1_final_enumerate_witness :
    (finalRenames (ceilLog10 (["a", "b"] : List String).length) ["a", "b"]).getD
        0 ("", "")
      = ((["a", "b"] : List String).getD 0 "",
         fmtIdx (ceilLog10 (["a", "b"] : List String).length) (0 + 1) ++ " " ++
           (["a", "b"] : List String).getD 0 "") :=
  (c1_final_enumerate ["a", "b"]).2.2 0 (by decide)

/-- Counterexample for C1 as stated: with 10 items the numeric field
has width `ceil(log10 10) = 1`, not 2, so the items are numbered
1..10 and the first new name is "1 a", not "01 a". -/
theorem c1_counterexample :
    ceilLog10 10 = 1 ∧
    (finalRenames (ceilLog10 10)
        ["a", "b", "c", "d", "e", "f", "g", "h", "i", "j"]).map Prod.snd
      = ["1 a", "2 b", "3 c", "4 d", "5 e", "6 f", "7 g", "8 h", "9 i", "10 j"] ∧
    ("1 a" : String) ≠ "01 a" := by
  refine ⟨rfl, rfl, by decide⟩

/-- Claim C7 (code bug): the delete-forward event of the line editor
DOES fault when the cursor sits at the end of a non-empty buffer: the
guard checks the buffer length, not the cursor position, and
`buffer.pop(cursor_pos)` raises `IndexError` (modelled as `none`).
This is the initial cursor position of every prompt, so pressing
Ctrl-D right after the prompt opens crashes the program. -/
theorem c7_delete_forward_faults :
    editStep EditEvent.deleteForward (initBuffer "abc") = none := rfl

/-- Claim C9 (confirmed): cursor moves wrap around,
`(CursorIndex ± 1) mod N` — written over `Nat` as
`(i + (N - 1)) % N` for the upward move, which agrees with the Python
`(i - 1) % N`; moving up from 0 yields `N - 1` and moving down from
`N - 1` yields 0. -/
theorem c9_move_wraparound (s : AppState)
    (hn : 1 ≤ s.files.length) (hi : s.current_idx < s.files.length) :
    (moveUp s).current_idx
        = (s.current_idx + (s.files.length - 1)) % s.files.length ∧
    (moveDown s).current_idx = (s.current_idx + 1) % s.files.length ∧
    (s.current_idx = 0 → (moveUp s).current_idx = s.files.length - 1) ∧
    (s.current_idx = s.files.length - 1 → (moveDown s).current_idx = 0) := by
  refine ⟨moveUpIdx_eq _ _ hi, moveDownIdx_eq _ _ hi, ?_, ?_⟩
  · intro h0
    show moveUpIdx s.current_idx s.files.length = s.files.length - 1
    rw [h0]
    exact moveUpIdx_zero _ (by omega)
  · intro hl
    show moveDownIdx s.current_idx s.files.length = 0
    rw [hl]
    exact moveDownIdx_last _ (by omega)

/-- Witness for C9 on a three-element list with the cursor at 0. -/
theorem c9_move_wraparound_witness :
    (moveUp ⟨["a", "b", "c"], 0, none, ""⟩).current_idx
        = (0 + ((["a", "b", "c"] : List String).length - 1)) %
            (["a", "b", "c"] : List String).length ∧
    (moveDown ⟨["a", "b", "c"], 0, none, ""⟩).current_idx
        = (0 + 1) % (["a", "b", "c"] : List String).length ∧
    ((0 : Nat) = 0 →
      (moveUp ⟨["a", "b", "c"], 0, none, ""⟩).current_idx
        = (["a", "b", "c"] : List String).length - 1) ∧
    ((0 : Nat) = (["a", "b", "c"] : List String).length - 1 →
      (moveDown ⟨["a", "b", "c"], 0, none, ""⟩).current_idx = 0) :=
  c9_move_wraparound ⟨["a", "b", "c"], 0, none, ""⟩ (by decide) (by decide)

/-! ## Strip-rename lemmas -/

lemma stripRenameList_fst (sub : String → String) : ∀ (files : List String),
    (stripRenameList sub files).1 = files.map sub := by
  intro files
  induction files with
  | nil => rfl
  | cons v rest ih =>
    simp only [stripRenameList, List.map_cons]
    by_cases hc : sub v ≠ v
    · rw [if_pos hc, ih]
    · rw [if_neg hc, ih, not_ne_iff.mp hc]

lemma stripRenameList_snd (sub : String → String) : ∀ (files : List String),
    (stripRenameList sub files).2 = files.countP fun v => sub v ≠ v := by
  intro files
  induction files with
  | nil => rfl
  | cons v rest ih =>
    simp only [stripRenameList, List.countP_cons]
    by_cases hc : sub v ≠ v
    · rw [if_pos hc, ih]
      simp [hc]
    · rw [if_neg hc, ih]
      simp [not_ne_iff.mp hc]

lemma stripRenameList_caret : ∀ (files : List String),
    stripRenameList caretSub files = (files, 0) := by
  intro files
  induction files with
  | nil => rfl
  | cons v rest ih => simp [stripRenameList, caretSub, ih]

lemma stripRenameFS_ok (sub : String → String) : ∀ (l : List String),
    stripRenameFS (fun _ _ => Except.ok ()) sub l
      = .ok (stripRenameList sub l) := by
  intro l
  induction l with
  | nil => rfl
  | cons v rest ih =>
    by_cases hc : sub v ≠ v
    · simp only [stripRenameFS, stripRenameList, if_pos hc, ih]
    · simp only [stripRenameFS, stripRenameList, if_neg hc, ih]

/-- Claim C5 (amended): the pattern-strip rename removes EVERY
non-overlapping match of the pattern from each name (`re.sub` with no
count argument), not only the first; items whose name is unchanged by
the substitution are left untouched, the reported count is the number
of changed items, and the default start-of-string pattern renames
zero items and reports count 0. -/
theorem c5_strip_rename (sub : String → String) (files : List String) :
    (stripRenameList sub files).1 = files.map sub ∧
    (stripRenameList sub files).2 = (files.countP fun v => sub v ≠ v) ∧
    stripRenameList caretSub files = (files, 0) :=
  ⟨stripRenameList_fst sub files, stripRenameList_snd sub files,
   stripRenameList_caret files⟩

/-- Counterexample for C5 as stated: with the literal pattern "a" the
name "banana" becomes "bnn" (every occurrence removed), while removing
only the first match would give "bnana". -/
theorem c5_counterexample :
    stripRenameList (reSubLit "a") ["banana"] = (["bnn"], 1) ∧
    specStripFirstStr "a" "banana" = "bnana" ∧
    reSubLit "a" "banana" ≠ specStripFirstStr "a" "banana" :=
  ⟨rfl, rfl, by decide⟩

/-- Claim C6 (amended): a filesystem failure during the SINGLE rename
is recovered locally — the list and cursor are unchanged, the status
message carries the reason, and the loop continues — but a failure
during the pattern-strip rename is not caught: it propagates out of
the loop (the strip loop has no try/except). -/
theorem c6_rename_failure (fs : String → String → Except String Unit)
    (s : AppState) (newName e : String)
    (hv : s.current_idx < s.files.length)
    (hne : newName ≠ s.files.getD s.current_idx "")
    (hfs : fs (s.files.getD s.current_idx "") newName = .error e)
    (sub : String → String) (v e2 : String) (rest : List String)
    (hsub : sub v ≠ v) (hfs2 : fs v (sub v) = .error e2) :
    (singleRename fs s (some newName)).files = s.files ∧
    (singleRename fs s (some newName)).current_idx = s.current_idx ∧
    (singleRename fs s (some newName)).message = "Error: " ++ e ∧
    (step fs (Key.renameKey (some newName)) s).isNext = true ∧
    stripRenameFS fs sub (v :: rest) = .error e2 := by
  have h1 : singleRename fs s (some newName) = { s with message := "Error: " ++ e } := by
    simp only [singleRename]
    rw [if_pos hne, hfs]
  refine ⟨by rw [h1], by rw [h1], by rw [h1], ?_, ?_⟩
  · simp only [step]
    rw [if_pos hv]
    rfl
  · simp only [stripRenameFS]
    rw [if_pos hsub, hfs2]

/-- Witness for C6 at a concrete failing filesystem. -/
theorem c6_rename_failure_witness :
    (singleRename (fun _ _ => Except.error "EPERM") ⟨["a"], 0, none, ""⟩
        (some "b")).files = ["a"] ∧
    (singleRename (fun _ _ => Except.error "EPERM") ⟨["a"], 0, none, ""⟩
        (some "b")).current_idx = 0 ∧
    (singleRename (fun _ _ => Except.error "EPERM") ⟨["a"], 0, none, ""⟩
        (some "b")).message = "Error: " ++ "EPERM" ∧
    (step (fun _ _ => Except.error "EPERM") (Key.renameKey (some "b"))
        ⟨["a"], 0, none, ""⟩).isNext = true ∧
    stripRenameFS (fun _ _ => Except.error "EPERM") (fun _ => "z") ["a"]
      = .error "EPERM" :=
  c6_rename_failure (fun _ _ => Except.error "EPERM") ⟨["a"], 0, none, ""⟩
    "b" "EPERM" (by decide) (by decide) rfl (fun _ => "z") "a" "EPERM" []
    (by decide) rfl

/-- Counterexample for C6 as stated: a failing rename inside the
pattern-strip loop is NOT recovered — the loop dies instead of
continuing with a status message. -/
theorem c6_counterexample :
    stripRenameFS (fun _ _ => Except.error "Permission denied")
        (fun v => v ++ "x") ["a"] = .error "Permission denied" ∧
    (step (fun _ _ => Except.error "Permission denied")
        (Key.strip (some fun v => v ++ "x")) ⟨["a"], 0, none, ""⟩).isNext
      = false :=
  ⟨rfl, rfl⟩

/-- Claim C10 (amended): after a single-rename trigger the prompt
resolution (confirmed or cancelled) always returns the session to
Running; a confirmed strip-pattern prompt returns to Running when the
renames succeed; the bulk-enumerate trigger does NOT return to
Running — `main` returns immediately after its prompt resolves,
carrying the resolution — and the loop is left only by the quit key
(carrying no pattern) or the bulk key. -/
theorem c10_session_transitions
    (fs : String → String → Except String Unit) (s : AppState)
    (res : Option String) (sub : String → String) (k : Key)
    (pat : Option String)
    (hv : s.current_idx < s.files.length) :
    (step fs (Key.renameKey res) s).isNext = true ∧
    (step (fun _ _ => Except.ok ()) (Key.strip (some sub)) s).isNext = true ∧
    step fs (Key.bulk res) s = .exitWith res ∧
    step fs Key.quit s = .exitWith none ∧
    (step fs k s = .exitWith pat → k = Key.quit ∨ k = Key.bulk pat) := by
  refine ⟨?_, ?_, rfl, rfl, ?_⟩
  · simp only [step]
    rw [if_pos hv]
    rfl
  · simp only [step]
    rw [stripRenameFS_ok]
    rfl
  · intro hexit
    cases k with
    | quit => exact Or.inl rfl
    | bulk r =>
        simp only [step] at hexit
        injection hexit with h
        exact Or.inr (by rw [h])
    | up => exact StepResult.noConfusion hexit
    | down => exact StepResult.noConfusion hexit
    | escCancel => exact StepResult.noConfusion hexit
    | other => exact StepResult.noConfusion hexit
    | swapUp =>
        simp only [step] at hexit
        split at hexit
        · exact StepResult.noConfusion hexit
        · exact StepResult.noConfusion hexit
    | swapDown =>
        simp only [step] at hexit
        split at hexit
        · exact StepResult.noConfusion hexit
        · exact StepResult.noConfusion hexit
    | renameKey r =>
        simp only [step] at hexit
        split at hexit
        · exact StepResult.noConfusion hexit
        · exact StepResult.noConfusion hexit
    | select =>
        simp only [step] at hexit
        split at hexit
        · exact StepResult.noConfusion hexit
        · split at hexit
          · exact StepResult.noConfusion hexit
          · split at hexit
            · exact StepResult.noConfusion hexit
            · exact StepResult.noConfusion hexit
    | strip r =>
        simp only [step] at hexit
        split at hexit
        · exact StepResult.noConfusion hexit
        · split at hexit
          · exact StepResult.noConfusion hexit
          · exact StepResult.noConfusion hexit

/-- Witness for C10 at a concrete state and resolutions. -/
theorem c10_session_transitions_witness :
    (step (fun _ _ => Except.ok ()) (Key.renameKey (some "p"))
        ⟨["a"], 0, none, ""⟩).isNext = true ∧
    (step (fun _ _ => Except.ok ()) (Key.strip (some fun v => v))
        ⟨["a"], 0, none, ""⟩).isNext = true ∧
    step (fun _ _ => Except.ok ()) (Key.bulk (some "p")) ⟨["a"], 0, none, ""⟩
      = .exitWith (some "p") ∧
    step (fun _ _ => Except.ok ()) Key.quit ⟨["a"], 0, none, ""⟩
      = .exitWith none ∧
    (step (fun _ _ => Except.ok ()) Key.quit ⟨["a"], 0, none, ""⟩
        = .exitWith none →
      Key.quit = Key.quit ∨ Key.quit = Key.bulk none) :=
  c10_session_transitions (fun _ _ => Except.ok ()) ⟨["a"], 0, none, ""⟩
    (some "p") (fun v => v) Key.quit none (by decide)

/-- Counterexample for C10 as stated: the bulk-enumerate trigger does
not return the session to Running after its prompt resolves — `main`
exits immediately, returning the resolved pattern. -/
theorem c10_counterexample :
    (step (fun _ _ => Except.ok ()) (Key.bulk (some "%01d"))
        ⟨["a"], 0, none, ""⟩).isNext = false ∧
    step (fun _ _ => Except.ok ()) (Key.bulk (some "%01d"))
        ⟨["a"], 0, none, ""⟩ = .exitWith (some "%01d") :=
  ⟨rfl, rfl⟩

/-! ## Swap-move lemmas -/

lemma applySwap_perm_valid (m : SwapMove) (s : AppState)
    (hv : s.current_idx < s.files.length) :
    (applySwap m s).files.Perm s.files ∧
    (applySwap m s).current_idx < (applySwap m s).files.length := by
  have hn : 0 < s.files.length := by omega
  cases m with
  | up =>
    constructor
    · exact listSwap_perm s.files s.current_idx _ hv (moveUpIdx_lt _ _ hn)
    · show moveUpIdx s.current_idx s.files.length
          < (listSwap s.files s.current_idx _).length
      rw [listSwap_length]
      exact moveUpIdx_lt _ _ hn
  | down =>
    constructor
    · exact listSwap_perm s.files s.current_idx _ hv (moveDownIdx_lt _ _ hn)
    · show moveDownIdx s.current_idx s.files.length
          < (listSwap s.files s.current_idx _).length
      rw [listSwap_length]
      exact moveDownIdx_lt _ _ hn

lemma applySwaps_perm : ∀ (ms : List SwapMove) (s : AppState),
    s.current_idx < s.files.length → (applySwaps ms s).files.Perm s.files := by
  intro ms
  induction ms with
  | nil => intro s _; exact List.Perm.refl _
  | cons m ms ih =>
    intro s hv
    have h := applySwap_perm_valid m s hv
    exact (ih (applySwap m s) h.2).trans h.1

/-- Claim C2 (confirmed): any sequence of swap-moves permutes the
items (the multiset of items is invariant), and a single swap-move
changes only the two positions it exchanges — the pre-move cursor row
and the row one step up or down with wraparound, which are adjacent in
the cyclic order of the list; every other position keeps its item. -/
theorem c2_swap_moves (s : AppState) (ms : List SwapMove) (k : Nat)
    (hv : s.current_idx < s.files.length) :
    (applySwaps ms s).files.Perm s.files ∧
    (k ≠ s.current_idx → k ≠ moveUpIdx s.current_idx s.files.length →
      (swapMoveUp s).files.getD k "" = s.files.getD k "") ∧
    (k ≠ s.current_idx → k ≠ moveDownIdx s.current_idx s.files.length →
      (swapMoveDown s).files.getD k "" = s.files.getD k "") := by
  refine ⟨applySwaps_perm ms s hv, ?_, ?_⟩
  · intro h1 h2
    exact listSwap_getD_ne s.files s.current_idx _ k h1 h2
  · intro h1 h2
    exact listSwap_getD_ne s.files s.current_idx _ k h1 h2

/-- Witness for C2: a concrete sequence of swap-moves on a
four-element list, and the locality of one swap-move at position 3. -/
theorem c2_swap_moves_witness :
    (applySwaps [SwapMove.up, SwapMove.down, SwapMove.up]
        ⟨["a", "b", "c", "d"], 1, none, ""⟩).files.Perm ["a", "b", "c", "d"] ∧
    ((3 : Nat) ≠ 1 → (3 : Nat) ≠ moveUpIdx 1 (["a", "b", "c", "d"] : List String).length →
      (swapMoveUp ⟨["a", "b", "c", "d"], 1, none, ""⟩).files.getD 3 ""
        = (["a", "b", "c", "d"] : List String).getD 3 "") ∧
    ((3 : Nat) ≠ 1 → (3 : Nat) ≠ moveDownIdx 1 (["a", "b", "c", "d"] : List String).length →
      (swapMoveDown ⟨["a", "b", "c", "d"], 1, none, ""⟩).files.getD 3 ""
        = (["a", "b", "c", "d"] : List String).getD 3 "") :=
  c2_swap_moves ⟨["a", "b", "c", "d"], 1, none, ""⟩
    [SwapMove.up, SwapMove.down, SwapMove.up] 3 (by decide)

/-- Claim C3 (amended): across a single swap-move the anchor keeps
denoting the same logical item PROVIDED the anchor is not the pre-move
cursor row itself (swap-moving the anchored row leaves the anchor
index unchanged, so it points at the swapped-in item), and the move
does not wrap around the boundary onto the anchor (where the clamp
applies, as the spec already documents). -/
theorem c3_anchor_tracking (s : AppState) (a : Nat)
    (ha : s.first_selection = some a) (hav : a < s.files.length)
    (hv : s.current_idx < s.files.length) :
    (a ≠ s.current_idx → ¬(s.current_idx = 0 ∧ a = s.files.length - 1) →
      (swapMoveUp s).first_selection.isSome = true ∧
      (swapMoveUp s).files.getD ((swapMoveUp s).first_selection.getD 0) ""
        = s.files.getD a "") ∧
    (a ≠ s.current_idx → ¬(s.current_idx = s.files.length - 1 ∧ a = 0) →
      (swapMoveDown s).first_selection.isSome = true ∧
      (swapMoveDown s).files.getD ((swapMoveDown s).first_selection.getD 0) ""
        = s.files.getD a "") := by
  have hn : 0 < s.files.length := by omega
  constructor
  · intro hai hclamp
    have hup : (swapMoveUp s).first_selection =
        if moveUpIdx s.current_idx s.files.length = a
        then some (min (a + 1) (s.files.length - 1)) else some a := by
      simp only [swapMoveUp, ha]
    by_cases hnew : moveUpIdx s.current_idx s.files.length = a
    · have hi0 : s.current_idx ≠ 0 := by
        intro h0
        exact hclamp ⟨h0, by rw [← hnew, h0, moveUpIdx_zero _ hn]⟩
      have hnew2 : moveUpIdx s.current_idx s.files.length = s.current_idx - 1 :=
        moveUpIdx_pos _ _ (by omega) hv
      have hmin : min (a + 1) (s.files.length - 1) = s.current_idx := by omega
      rw [hup, if_pos hnew]
      refine ⟨rfl, ?_⟩
      simp only [Option.getD_some]
      rw [hmin]
      show (listSwap s.files s.current_idx
          (moveUpIdx s.current_idx s.files.length)).getD s.current_idx "" = _
      rw [listSwap_getD_left _ _ _ (by omega) hv, hnew]
    · rw [hup, if_neg hnew]
      refine ⟨rfl, ?_⟩
      simp only [Option.getD_some]
      show (listSwap s.files s.current_idx
          (moveUpIdx s.current_idx s.files.length)).getD a "" = _
      exact listSwap_getD_ne _ _ _ _ hai (fun h => hnew h.symm)
  · intro hai hclamp
    have hdown : (swapMoveDown s).first_selection =
        if moveDownIdx s.current_idx s.files.length = a
        then some (a - 1) else some a := by
      simp only [swapMoveDown, ha]
    by_cases hnew : moveDownIdx s.current_idx s.files.length = a
    · have hil : s.current_idx ≠ s.files.length - 1 := by
        intro h0
        exact hclamp ⟨h0, by rw [← hnew, h0, moveDownIdx_last _ hn]⟩
      have hnew2 : moveDownIdx s.current_idx s.files.length = s.current_idx + 1 :=
        moveDownIdx_mid _ _ (by omega)
      have hsub : a - 1 = s.current_idx := by omega
      rw [hdown, if_pos hnew]
      refine ⟨rfl, ?_⟩
      simp only [Option.getD_some]
      rw [hsub]
      show (listSwap s.files s.current_idx
          (moveDownIdx s.current_idx s.files.length)).getD s.current_idx "" = _
      rw [listSwap_getD_left _ _ _ (by omega) hv, hnew]
    · rw [hdown, if_neg hnew]
      refine ⟨rfl, ?_⟩
      simp only [Option.getD_some]
      show (listSwap s.files s.current_idx
          (moveDownIdx s.current_idx s.files.length)).getD a "" = _
      exact listSwap_getD_ne _ _ _ _ hai (fun h => hnew h.symm)

/-- Witness for C3: anchor at 0, cursor at 1, on a three-element
list; both swap-move directions keep the anchor on the item "x". -/
theorem c3_anchor_tracking_witness :
    ((0 : Nat) ≠ 1 → ¬((1 : Nat) = 0 ∧ (0 : Nat) = (["x", "y", "z"] : List String).length - 1) →
      (swapMoveUp ⟨["x", "y", "z"], 1, some 0, ""⟩).first_selection.isSome = true ∧
      (swapMoveUp ⟨["x", "y", "z"], 1, some 0, ""⟩).files.getD
          ((swapMoveUp ⟨["x", "y", "z"], 1, some 0, ""⟩).first_selection.getD 0) ""
        = (["x", "y", "z"] : List String).getD 0 "") ∧
    ((0 : Nat) ≠ 1 → ¬((1 : Nat) = (["x", "y", "z"] : List String).length - 1 ∧ (0 : Nat) = 0) →
      (swapMoveDown ⟨["x", "y", "z"], 1, some 0, ""⟩).first_selection.isSome = true ∧
      (swapMoveDown ⟨["x", "y", "z"], 1, some 0, ""⟩).files.getD
          ((swapMoveDown ⟨["x", "y", "z"], 1, some 0, ""⟩).first_selection.getD 0) ""
        = (["x", "y", "z"] : List String).getD 0 "") :=
  c3_anchor_tracking ⟨["x", "y", "z"], 1, some 0, ""⟩ 0 rfl (by decide) (by decide)

/-- Counterexample for C3 as stated: swap-moving the anchored row
itself (anchor = cursor = 1 on a two-element list) does not wrap
around the boundary, yet afterwards the anchor denotes a different
item: it still points at index 1, which now holds "x" instead of
"y". -/
theorem c3_counterexample :
    (swapMoveUp ⟨["x", "y"], 1, some 1, ""⟩).first_selection = some 1 ∧
    (swapMoveUp ⟨["x", "y"], 1, some 1, ""⟩).files = ["y", "x"] ∧
    (["x", "y"] : List String).getD 1 "" = "y" ∧
    (swapMoveUp ⟨["x", "y"], 1, some 1, ""⟩).files.getD 1 "" = "x" ∧
    moveUpIdx 1 2 = 0 ∧ ("x" : String) ≠ "y" := by decide

/-- Claim C4 (confirmed): pick-up at anchor `a` followed by a drop at
the cursor: if they differ, the loop continues with the one picked
item removed at `a` and reinserted at the cursor, the relative order
of all other items preserved (erasing the reinserted item recovers
exactly the original list without the picked item), the anchor
cleared, and the cursor unchanged; if they coincide, the item list
and cursor are unchanged and the anchor becomes unset. -/
theorem c4_pickup_drop (fs : String → String → Except String Unit)
    (s : AppState) (a : Nat)
    (ha : s.first_selection = some a) (hav : a < s.files.length)
    (hb : s.current_idx < s.files.length) :
    (step fs Key.select s).isNext = true ∧
    (resultState (step fs Key.select s)).first_selection = none ∧
    (resultState (step fs Key.select s)).current_idx = s.current_idx ∧
    (a = s.current_idx → (resultState (step fs Key.select s)).files = s.files) ∧
    (a ≠ s.current_idx →
      (resultState (step fs Key.select s)).files.length = s.files.length ∧
      (resultState (step fs Key.select s)).files.getD s.current_idx ""
        = s.files.getD a "" ∧
      (resultState (step fs Key.select s)).files.eraseIdx s.current_idx
        = s.files.eraseIdx a) := by
  by_cases hac : a = s.current_idx
  · have hstep : step fs Key.select s
        = .next { s with message := "", first_selection := none } := by
      simp only [step, ha]
      rw [if_pos hac]
    rw [hstep]
    exact ⟨rfl, rfl, rfl, fun _ => rfl, fun h => absurd hac h⟩
  · have hstep : step fs Key.select s
        = .next (dropItem { s with message := "" } a) := by
      simp only [step, ha]
      rw [if_neg hac, if_pos hav]
    rw [hstep]
    have hlen_e : (s.files.eraseIdx a).length = s.files.length - 1 :=
      List.length_eraseIdx_of_lt hav
    have hble : s.current_idx ≤ (s.files.eraseIdx a).length := by omega
    have hlen : ((s.files.eraseIdx a).insertIdx s.current_idx
        (s.files.getD a "")).length = s.files.length := by
      rw [List.length_insertIdx _ _ hble, hlen_e]
      omega
    refine ⟨rfl, rfl, rfl, fun h => absurd h hac, fun _ => ⟨hlen, ?_, ?_⟩⟩
    · show ((s.files.eraseIdx a).insertIdx s.current_idx
          (s.files.getD a "")).getD s.current_idx "" = s.files.getD a ""
      rw [List.getD_eq_getElem?_getD,
        List.getElem?_eq_getElem (by rw [hlen]; exact hb),
        List.getElem_insertIdx_self _ _ _ hble]
      rfl
    · exact List.eraseIdx_insertIdx s.current_idx (s.files.eraseIdx a)

/-- Witness for C4: pick up item 0 and drop it at cursor 2 on a
three-element list. -/
theorem c4_pickup_drop_witness :
    (step (fun _ _ => Except.ok ()) Key.select
        ⟨["a", "b", "c"], 2, some 0, ""⟩).isNext = true ∧
    (resultState (step (fun _ _ => Except.ok ()) Key.select
        ⟨["a", "b", "c"], 2, some 0, ""⟩)).first_selection = none ∧
    (resultState (step (fun _ _ => Except.ok ()) Key.select
        ⟨["a", "b", "c"], 2, some 0, ""⟩)).current_idx = 2 ∧
    ((0 : Nat) = 2 → (resultState (step (fun _ _ => Except.ok ()) Key.select
        ⟨["a", "b", "c"], 2, some 0, ""⟩)).files = ["a", "b", "c"]) ∧
    ((0 : Nat) ≠ 2 →
      (resultState (step (fun _ _ => Except.ok ()) Key.select
          ⟨["a", "b", "c"], 2, some 0, ""⟩)).files.length
        = (["a", "b", "c"] : List String).length ∧
      (resultState (step (fun _ _ => Except.ok ()) Key.select
          ⟨["a", "b", "c"], 2, some 0, ""⟩)).files.getD 2 ""
        = (["a", "b", "c"] : List String).getD 0 "" ∧
      (resultState (step (fun _ _ => Except.ok ()) Key.select
          ⟨["a", "b", "c"], 2, some 0, ""⟩)).files.eraseIdx 2
        = (["a", "b", "c"] : List String).eraseIdx 0) :=
  c4_pickup_drop (fun _ _ => Except.ok ()) ⟨["a", "b", "c"], 2, some 0, ""⟩ 0
    rfl (by decide) (by decide)

/-! ## Line-editor bound lemmas -/

lemma pyPop_nonneg (l : List Char) (i : Int) (h0 : 0 ≤ i) :
    pyPop l i
      = if i < (l.length : Int) then some (l.eraseIdx i.toNat) else none := by
  simp only [pyPop]
  rw [if_neg (by omega : ¬i < 0)]
  by_cases h : i < (l.length : Int)
  · rw [if_pos ⟨h0, h⟩, if_pos h]
  · rw [if_neg (fun hc => h hc.2), if_neg h]

lemma pyInsert_length (l : List Char) (i : Int) (c : Char)
    (h0 : 0 ≤ i) (hle : i ≤ (l.length : Int)) :
    (pyInsert l i c).length = l.length + 1 := by
  simp only [pyInsert]
  rw [if_neg (by omega : ¬i < 0)]
  have he : (max 0 (min i (l.length : Int))).toNat = i.toNat := by omega
  rw [he, List.length_insertIdx _ _ (by omega : i.toNat ≤ l.length)]

/-- Claim C8 (amended): every line-editor editing event keeps the
cursor offset within `[0, length]`, EXCEPT jump-to-end on an empty
buffer, which sets the offset to `-1`; jump-to-end always sets the
offset to `length - 1` (the documented off-by-one). -/
theorem c8_cursor_bounds (e : EditEvent) (b b2 : EditBuffer)
    (hstep : editStep e b = some b2)
    (h0 : 0 ≤ b.cursor) (hlen : b.cursor ≤ (b.buffer.length : Int)) :
    ((e ≠ EditEvent.jumpEnd ∨ b.buffer ≠ []) →
      0 ≤ b2.cursor ∧ b2.cursor ≤ (b2.buffer.length : Int)) ∧
    (e = EditEvent.jumpEnd → b2.cursor = (b.buffer.length : Int) - 1) := by
  cases e with
  | home =>
    simp only [editStep, Option.some.injEq] at hstep
    subst hstep
    refine ⟨fun _ => ⟨le_refl 0, ?_⟩, fun h => EditEvent.noConfusion h⟩
    show (0 : Int) ≤ (b.buffer.length : Int)
    omega
  | deleteForward =>
    refine ⟨fun _ => ?_, fun h => EditEvent.noConfusion h⟩
    simp only [editStep] at hstep
    by_cases hl : b.buffer.length > 0
    · rw [if_pos hl, pyPop_nonneg _ _ h0] at hstep
      by_cases hc : b.cursor < (b.buffer.length : Int)
      · rw [if_pos hc] at hstep
        simp only [Option.map_some', Option.some.injEq] at hstep
        subst hstep
        have hle : (b.buffer.eraseIdx b.cursor.toNat).length
            = b.buffer.length - 1 :=
          List.length_eraseIdx_of_lt (by omega)
        constructor
        · exact h0
        · show b.cursor ≤ ((b.buffer.eraseIdx b.cursor.toNat).length : Int)
          omega
      · rw [if_neg hc] at hstep
        simp at hstep
    · rw [if_neg hl] at hstep
      simp only [Option.some.injEq] at hstep
      subst hstep
      exact ⟨h0, hlen⟩
  | jumpEnd =>
    simp only [editStep, Option.some.injEq] at hstep
    subst hstep
    constructor
    · intro h
      have hne : b.buffer ≠ [] := h.resolve_left (fun hc => hc rfl)
      have hpos : b.buffer.length ≠ 0 := fun hc => hne (List.length_eq_zero.mp hc)
      refine ⟨?_, ?_⟩
      · show (0 : Int) ≤ (b.buffer.length : Int) - 1
        omega
      · show (b.buffer.length : Int) - 1 ≤ (b.buffer.length : Int)
        omega
    · intro _
      rfl
  | backspace =>
    refine ⟨fun _ => ?_, fun h => EditEvent.noConfusion h⟩
    simp only [editStep] at hstep
    by_cases hc : b.cursor > 0
    · rw [if_pos hc, pyPop_nonneg _ _ (by omega)] at hstep
      have h2 : b.cursor - 1 < (b.buffer.length : Int) := by omega
      rw [if_pos h2] at hstep
      simp only [Option.map_some', Option.some.injEq] at hstep
      subst hstep
      have hle : (b.buffer.eraseIdx (b.cursor - 1).toNat).length
          = b.buffer.length - 1 :=
        List.length_eraseIdx_of_lt (by omega)
      constructor
      · show 0 ≤ b.cursor - 1
        omega
      · show b.cursor - 1 ≤ ((b.buffer.eraseIdx (b.cursor - 1).toNat).length : Int)
        omega
    · rw [if_neg hc] at hstep
      simp only [Option.some.injEq] at hstep
      subst hstep
      exact ⟨h0, hlen⟩
  | left =>
    refine ⟨fun _ => ?_, fun h => EditEvent.noConfusion h⟩
    simp only [editStep, Option.some.injEq] at hstep
    subst hstep
    by_cases hc : b.cursor > 0
    · rw [if_pos hc]
      refine ⟨?_, ?_⟩
      · show (0 : Int) ≤ b.cursor - 1
        omega
      · show b.cursor - 1 ≤ (b.buffer.length : Int)
        omega
    · rw [if_neg hc]
      exact ⟨h0, hlen⟩
  | right =>
    refine ⟨fun _ => ?_, fun h => EditEvent.noConfusion h⟩
    simp only [editStep, Option.some.injEq] at hstep
    subst hstep
    by_cases hc : b.cursor < (b.buffer.length : Int)
    · rw [if_pos hc]
      refine ⟨?_, ?_⟩
      · show (0 : Int) ≤ b.cursor + 1
        omega
      · show b.cursor + 1 ≤ (b.buffer.length : Int)
        omega
    · rw [if_neg hc]
      exact ⟨h0, hlen⟩
  | insert c =>
    refine ⟨fun _ => ?_, fun h => EditEvent.noConfusion h⟩
    simp only [editStep, Option.some.injEq] at hstep
    subst hstep
    have hl := pyInsert_length b.buffer b.cursor c h0 hlen
    constructor
    · show 0 ≤ b.cursor + 1
      omega
    · show b.cursor + 1 ≤ ((pyInsert b.buffer b.cursor c).length : Int)
      omega

/-- Witness for C8: inserting a character in the middle of "ab". -/
theorem c8_cursor_bounds_witness :
    ((EditEvent.insert 'x' ≠ EditEvent.jumpEnd ∨ (['a', 'b'] : List Char) ≠ []) →
      0 ≤ (⟨['a', 'x', 'b'], 2⟩ : EditBuffer).cursor ∧
      (⟨['a', 'x', 'b'], 2⟩ : EditBuffer).cursor
        ≤ ((⟨['a', 'x', 'b'], 2⟩ : EditBuffer).buffer.length : Int)) ∧
    (EditEvent.insert 'x' = EditEvent.jumpEnd →
      (⟨['a', 'x', 'b'], 2⟩ : EditBuffer).cursor
        = (((['a', 'b'] : List Char).length : Int)) - 1) :=
  c8_cursor_bounds (EditEvent.insert 'x') ⟨['a', 'b'], 1⟩ ⟨['a', 'x', 'b'], 2⟩
    rfl (by decide) (by decide)

/-- Counterexample for C8 as stated: jump-to-end on an empty buffer
sets the cursor offset to `-1`, which is outside `[0, length]`. -/
theorem c8_counterexample :
    editStep EditEvent.jumpEnd ⟨[], 0⟩ = some ⟨[], -1⟩ ∧ ¬(0 ≤ (-1 : Int)) :=
  ⟨rfl, by decide⟩

end Order
